import Mathlib

/-!
Verification of the `imprint` library: a file-fingerprinting crate that hashes a
bounded head sample and (for large files) a bounded tail sample of a file.

The embedding below translates `src/lib.rs` shallowly:

* bytes are `Nat`, file contents are `List Nat`;
* the filesystem is a map `String → Option FsEntry` (`none` models a stat/open
  failure at the OS boundary);
* `i64` values are exact `Int`s, with the `u64 as i64` cast modelled bit-exactly
  by `u64_as_i64` (two's-complement wrap on values ≥ 2^63);
* fallible operations return `Except FpError _`; `read_exact` fails when fewer
  bytes than requested are available, `seek` from end fails on a negative
  target position, exactly as in the Rust std library;
* the digest backend (`sha2::Sha256` in the source, explicitly swappable per the
  design notes) is a parameter `digestFn : List Nat → List Nat`; theorems hold
  for every choice of digest, and evaluable witnesses instantiate it with the
  injective function `idDigest`.
-/

/-- Sample size for head and tail segments: `const SAMPLE_SIZE: i64 = 0x80000`. -/
def SAMPLE_SIZE : Int := 0x80000

/-- `SAMPLE_SIZE` as a natural number, for indexing into byte lists. -/
def sampleSizeNat : Nat := 0x80000

/-- `i64::max_value()` viewed as a `u64`/`Nat`. -/
def I64_MAX : Nat := 2 ^ 63 - 1

/-- The Rust cast `len as i64` applied to a `u64` value: two's-complement
reinterpretation of the low 64 bits. -/
def u64_as_i64 (n : Nat) : Int :=
  if n % 2 ^ 64 < 2 ^ 63 then ((n % 2 ^ 64 : Nat) : Int)
  else ((n % 2 ^ 64 : Nat) : Int) - 2 ^ 64

/-- `fn get_head_length(len: u64) -> i64`. -/
def get_head_length (len : Nat) : Int :=
  if len > I64_MAX then SAMPLE_SIZE
  else min (u64_as_i64 len) SAMPLE_SIZE

/-- `fn get_tail_length(len: u64) -> Option<i64>`. -/
def get_tail_length (len : Nat) : Option Int :=
  if len > I64_MAX then some SAMPLE_SIZE
  else
    match u64_as_i64 len - SAMPLE_SIZE with
    | d => if d ≤ 0 then none else some (min d SAMPLE_SIZE)

/-- A directory entry as seen by `fs::metadata` (after following symlinks):
a regular file with its contents, a directory, or another special file. -/
inductive FsEntry where
  | file (contents : List Nat)
  | dir
  | special
deriving DecidableEq

/-- The two error kinds of the construction: `NotAFile` is the custom
`io::Error` built in `Metadata::from_path` for non-regular files, `IoError`
is every propagated OS-level `io::Error` (stat, open, seek, short read). -/
inductive FpError where
  | NotAFile
  | IoError
deriving DecidableEq

/-- A filesystem: maps a path to its entry; `none` means stat/open fails. -/
def Fs : Type := String → Option FsEntry

/-- `struct Metadata { path: PathBuf, length: u64 }`. -/
structure Metadata where
  path : String
  length : Nat
deriving DecidableEq

/-- `struct Imprint { meta: Metadata, head: Box<[u8]>, tail: Option<Box<[u8]>> }`,
with digests as byte lists. -/
structure Imprint where
  meta : Metadata
  head : List Nat
  tail : Option (List Nat)
deriving DecidableEq

/-- `Imprint::path`. -/
def Imprint.pathOf (i : Imprint) : String := i.meta.path

/-- `Imprint::len`. -/
def Imprint.lenOf (i : Imprint) : Nat := i.meta.length

/-- `Metadata::from_path`: stat the path, reject non-regular files, record the
path and the stat'd length. -/
def Metadata.from_path (fs : Fs) (path : String) : Except FpError Metadata :=
  match fs path with
  | none => .error .IoError
  | some (FsEntry.file c) => .ok ⟨path, c.length⟩
  | some _ => .error .NotAFile

/-- `reader.read_exact(&mut buffer[..n])` with the reader positioned at `pos`:
returns the `n` bytes at `pos` or fails if fewer than `n` are available. -/
def read_exact (contents : List Nat) (pos n : Nat) : Except FpError (List Nat) :=
  if pos + n ≤ contents.length then .ok ((contents.drop pos).take n)
  else .error .IoError

/-- `fn hash_from_start`: exact read of `n` bytes from offset 0, then digest. -/
def hash_from_start (digestFn : List Nat → List Nat) (contents : List Nat)
    (n : Nat) : Except FpError (List Nat) :=
  (read_exact contents 0 n).map digestFn

/-- `fn hash_from_end`: `seek(SeekFrom::End(-offset))` (failing when the target
position is negative, i.e. `offset` exceeds the file length), then an exact
read of `offset` bytes, then digest. -/
def hash_from_end (digestFn : List Nat → List Nat) (contents : List Nat)
    (offset : Int) : Except FpError (List Nat) :=
  if (0 : Int) ≤ (contents.length : Int) - offset then
    (read_exact contents ((contents.length : Int) - offset).toNat
      offset.toNat).map digestFn
  else .error .IoError

/-- Rust's `Option::<Result<_, _>>::transpose`. -/
def exceptTranspose (x : Option (Except FpError (List Nat))) :
    Except FpError (Option (List Nat)) :=
  match x with
  | none => .ok none
  | some (.ok a) => .ok (some a)
  | some (.error e) => .error e

/-- `impl TryInto<Imprint> for Metadata`: open the file, digest the head
sample, digest the tail sample when `get_tail_length` prescribes one
(`.map(...).transpose()?`), and assemble the `Imprint`. Any failing step
aborts with its error. -/
def Metadata.try_into (digestFn : List Nat → List Nat) (fs : Fs)
    (m : Metadata) : Except FpError Imprint :=
  match fs m.path with
  | some (FsEntry.file contents) =>
    (hash_from_start digestFn contents (get_head_length m.length).toNat).bind
      fun head =>
        (exceptTranspose ((get_tail_length m.length).map
          fun len => hash_from_end digestFn contents len)).bind
          fun tail => Except.ok ⟨m, head, tail⟩
  | some _ => .error .IoError
  | none => .error .IoError

/-- `Fingerprint::from_path` of the spec: `Metadata::from_path` followed by
`try_into`. -/
def imprint_from_path (digestFn : List Nat → List Nat) (fs : Fs)
    (path : String) : Except FpError Imprint :=
  (Metadata.from_path fs path).bind fun m => m.try_into digestFn fs

/-- `impl PartialEq for Metadata`: compares lengths only. -/
def Metadata.beq (a b : Metadata) : Bool := a.length == b.length

/-- Derived `PartialEq` for `Imprint`: fieldwise, using `Metadata`'s custom
equality for `meta`. -/
def Imprint.beq (a b : Imprint) : Bool :=
  Metadata.beq a.meta b.meta && a.head == b.head && a.tail == b.tail

/-- `impl Hash for Metadata`: feeds only `length` to the hasher. The model
records the stream of values fed to the hasher. -/
def Metadata.hashStream (m : Metadata) : List Nat := [m.length]

/-- Derived `Hash` for `Imprint`: hashes `meta` (via its custom `Hash`), then
`head` (length prefix then bytes, as Rust hashes slices), then `tail`
(discriminant then payload, as Rust hashes `Option`). -/
def Imprint.hashStream (i : Imprint) : List Nat :=
  i.meta.hashStream ++ (i.head.length :: i.head) ++
    (match i.tail with
      | none => [0]
      | some t => 1 :: t.length :: t)

/-- A concrete injective digest backend used to evaluate witnesses; the design
notes make the digest algorithm a swappable capability, and every theorem
below is quantified over it. -/
def idDigest : List Nat → List Nat := fun l => l

theorem u64_as_i64_of_le {n : Nat} (h : n ≤ I64_MAX) : u64_as_i64 n = n := by
  have h63 : n < 2 ^ 63 := by
    unfold I64_MAX at h
    omega
  have h64 : n % 2 ^ 64 = n := Nat.mod_eq_of_lt (by omega)
  unfold u64_as_i64
  rw [h64, if_pos h63]

theorem get_head_length_eq (len : Nat) :
    get_head_length len = ((min len sampleSizeNat : Nat) : Int) := by
  unfold get_head_length
  by_cases h : len > I64_MAX
  · have hmin : min len sampleSizeNat = sampleSizeNat := by
      unfold I64_MAX at h
      unfold sampleSizeNat
      omega
    rw [if_pos h, hmin]
    unfold SAMPLE_SIZE sampleSizeNat
    rfl
  · rw [if_neg h, u64_as_i64_of_le (le_of_not_lt h)]
    unfold SAMPLE_SIZE
    unfold sampleSizeNat
    push_cast
    omega

theorem get_head_length_toNat (len : Nat) :
    (get_head_length len).toNat = min len sampleSizeNat := by
  rw [get_head_length_eq]
  exact Int.toNat_natCast _

theorem get_tail_length_eq (len : Nat) :
    get_tail_length len =
      if sampleSizeNat < len then
        some ((min (len - sampleSizeNat) sampleSizeNat : Nat) : Int)
      else none := by
  unfold get_tail_length
  by_cases h : len > I64_MAX
  · have h1 : sampleSizeNat < len := by
      unfold I64_MAX at h
      unfold sampleSizeNat
      omega
    have h2 : min (len - sampleSizeNat) sampleSizeNat = sampleSizeNat := by
      unfold I64_MAX at h
      unfold sampleSizeNat
      omega
    rw [if_pos h, if_pos h1, h2]
    unfold SAMPLE_SIZE sampleSizeNat
    rfl
  · rw [if_neg h, u64_as_i64_of_le (le_of_not_lt h)]
    by_cases h1 : sampleSizeNat < len
    · have hd : ¬ ((len : Int) - SAMPLE_SIZE ≤ 0) := by
        unfold SAMPLE_SIZE
        unfold sampleSizeNat at h1
        omega
      simp only [if_neg hd, if_pos h1]
      congr 1
      unfold SAMPLE_SIZE
      unfold sampleSizeNat at h1 ⊢
      push_cast
      omega
    · have hd : (len : Int) - SAMPLE_SIZE ≤ 0 := by
        unfold SAMPLE_SIZE
        unfold sampleSizeNat at h1
        omega
      simp only [if_pos hd, if_neg h1]

theorem try_into_eval (digestFn : List Nat → List Nat) (fs : Fs) (m : Metadata)
    (c : List Nat) (hfs : fs m.path = some (FsEntry.file c))
    (hlen : m.length = c.length) :
    m.try_into digestFn fs = .ok ⟨m,
      digestFn (c.take (min c.length sampleSizeNat)),
      if sampleSizeNat < c.length then
        some (digestFn
          (c.drop (c.length - min (c.length - sampleSizeNat) sampleSizeNat)))
      else none⟩ := by
  have hred : m.try_into digestFn fs =
      (hash_from_start digestFn c (get_head_length m.length).toNat).bind
        fun head =>
          (exceptTranspose ((get_tail_length m.length).map
            fun len => hash_from_end digestFn c len)).bind
            fun tail => Except.ok ⟨m, head, tail⟩ := by
    unfold Metadata.try_into
    rw [hfs]
  have hhead2 : hash_from_start digestFn c (get_head_length m.length).toNat =
      Except.ok (digestFn (c.take (min c.length sampleSizeNat))) := by
    unfold hash_from_start
    rw [hlen, get_head_length_toNat]
    unfold read_exact
    rw [if_pos (by omega : 0 + min c.length sampleSizeNat ≤ c.length),
      List.drop_zero]
    rfl
  rw [hred, hhead2, hlen, get_tail_length_eq]
  by_cases hL : sampleSizeNat < c.length
  · rw [if_pos hL, if_pos hL]
    have hfe : hash_from_end digestFn c
        ((min (c.length - sampleSizeNat) sampleSizeNat : Nat) : Int) =
        Except.ok (digestFn
          (c.drop (c.length - min (c.length - sampleSizeNat) sampleSizeNat))) := by
      unfold hash_from_end
      rw [if_pos (by
        push_cast
        omega : (0 : Int) ≤ (c.length : Int) -
          ((min (c.length - sampleSizeNat) sampleSizeNat : Nat) : Int))]
      have hpos : ((c.length : Int) -
          ((min (c.length - sampleSizeNat) sampleSizeNat : Nat) : Int)).toNat =
          c.length - min (c.length - sampleSizeNat) sampleSizeNat := by
        push_cast
        omega
      rw [hpos, Int.toNat_natCast]
      unfold read_exact
      rw [if_pos (by omega :
        c.length - min (c.length - sampleSizeNat) sampleSizeNat +
          min (c.length - sampleSizeNat) sampleSizeNat ≤ c.length)]
      have hdl : (c.drop (c.length -
          min (c.length - sampleSizeNat) sampleSizeNat)).take
          (min (c.length - sampleSizeNat) sampleSizeNat) =
          c.drop (c.length - min (c.length - sampleSizeNat) sampleSizeNat) := by
        apply List.take_of_length_le
        rw [List.length_drop]
        omega
      rw [hdl]
      rfl
    rw [Option.map_some', hfe]
    rfl
  · rw [if_neg hL, if_neg hL]
    rfl

theorem metadataBeq_iff (a b : Metadata) :
    Metadata.beq a b = true ↔ a.length = b.length := by
  simp [Metadata.beq]

theorem imprintBeq_iff (a b : Imprint) :
    Imprint.beq a b = true ↔
      a.meta.length = b.meta.length ∧ a.head = b.head ∧ a.tail = b.tail := by
  simp [Imprint.beq, Metadata.beq, and_assoc]

theorem try_into_replicate (digestFn : List Nat → List Nat) (fs : Fs)
    (p : String) (L b : Nat) (hL : 2 * sampleSizeNat ≤ L)
    (hfs : fs p = some (FsEntry.file (List.replicate L b))) :
    Metadata.try_into digestFn fs ⟨p, L⟩ =
      .ok ⟨⟨p, L⟩, digestFn (List.replicate sampleSizeNat b),
        some (digestFn (List.replicate sampleSizeNat b))⟩ := by
  have hS : 0 < sampleSizeNat := by decide
  have hlen : (⟨p, L⟩ : Metadata).length = (List.replicate L b).length := by
    simp
  rw [try_into_eval digestFn fs _ _ hfs hlen]
  simp only [List.length_replicate]
  have hmin1 : min L sampleSizeNat = sampleSizeNat := by omega
  have hmin2 : min (L - sampleSizeNat) sampleSizeNat = sampleSizeNat := by omega
  have hlt : sampleSizeNat < L := by omega
  rw [hmin1, hmin2, if_pos hlt, List.take_replicate, List.drop_replicate]
  have e1 : min sampleSizeNat L = sampleSizeNat := by omega
  have e2 : L - (L - sampleSizeNat) = sampleSizeNat := by omega
  rw [e1, e2]

theorem exceptBind_ok (a : Metadata) (f : Metadata → Except FpError Imprint) :
    (Except.ok a : Except FpError Metadata).bind f = f a := rfl

/-- Filesystem for the C1 counterexample: an all-zero file of length
`3 * SAMPLE_SIZE` at `"a"` and an all-zero file of length `4 * SAMPLE_SIZE`
at `"b"`. -/
def c1Fs : Fs := fun p =>
  if p = "a" then some (FsEntry.file (List.replicate (3 * sampleSizeNat) 0))
  else if p = "b" then some (FsEntry.file (List.replicate (4 * sampleSizeNat) 0))
  else none

/-- The imprint constructed from `"a"` under `c1Fs`. -/
def c1ImprintA : Imprint :=
  ⟨⟨"a", 3 * sampleSizeNat⟩, idDigest (List.replicate sampleSizeNat 0),
    some (idDigest (List.replicate sampleSizeNat 0))⟩

/-- The imprint constructed from `"b"` under `c1Fs`. -/
def c1ImprintB : Imprint :=
  ⟨⟨"b", 4 * sampleSizeNat⟩, idDigest (List.replicate sampleSizeNat 0),
    some (idDigest (List.replicate sampleSizeNat 0))⟩

/-- Claim C1, amended: for `Imprint` values, equality holds iff the recorded
lengths are equal, the head digests are equal, and the tail values are equal
(the derived `PartialEq` goes through `Metadata`'s length-only equality);
the stored path has no influence. -/
theorem c1_imprint_eq_amended (a b : Imprint) :
    Imprint.beq a b = true ↔
      a.meta.length = b.meta.length ∧ a.head = b.head ∧ a.tail = b.tail :=
  imprintBeq_iff a b

/-- Claim C1 as stated is false: the two constructed imprints of an all-zero
`3 * SAMPLE_SIZE`-byte file and an all-zero `4 * SAMPLE_SIZE`-byte file have
equal head digests and equal tail values, yet compare unequal, because the
derived equality also compares the `Metadata` lengths. -/
theorem c1_counterexample :
    imprint_from_path idDigest c1Fs "a" = .ok c1ImprintA ∧
    imprint_from_path idDigest c1Fs "b" = .ok c1ImprintB ∧
    c1ImprintA.head = c1ImprintB.head ∧
    c1ImprintA.tail = c1ImprintB.tail ∧
    Imprint.beq c1ImprintA c1ImprintB = false := by
  have hfa : c1Fs "a" = some (FsEntry.file (List.replicate (3 * sampleSizeNat) 0)) := by
    simp [c1Fs]
  have hfb : c1Fs "b" = some (FsEntry.file (List.replicate (4 * sampleSizeNat) 0)) := by
    simp [c1Fs]
  have hfromA : Metadata.from_path c1Fs "a" = .ok ⟨"a", 3 * sampleSizeNat⟩ := by
    unfold Metadata.from_path
    rw [hfa]
    simp
  have hfromB : Metadata.from_path c1Fs "b" = .ok ⟨"b", 4 * sampleSizeNat⟩ := by
    unfold Metadata.from_path
    rw [hfb]
    simp
  refine ⟨?_, ?_, rfl, rfl, ?_⟩
  · unfold imprint_from_path
    rw [hfromA, exceptBind_ok]
    exact try_into_replicate idDigest c1Fs "a" (3 * sampleSizeNat) 0
      (by omega) hfa
  · unfold imprint_from_path
    rw [hfromB, exceptBind_ok]
    exact try_into_replicate idDigest c1Fs "b" (4 * sampleSizeNat) 0
      (by omega) hfb
  · have hm : Metadata.beq (⟨"a", 3 * sampleSizeNat⟩ : Metadata)
        ⟨"b", 4 * sampleSizeNat⟩ = false := by
      unfold Metadata.beq sampleSizeNat
      rfl
    show Imprint.beq c1ImprintA c1ImprintB = false
    unfold Imprint.beq
    rw [show c1ImprintA.meta = ⟨"a", 3 * sampleSizeNat⟩ from rfl,
      show c1ImprintB.meta = ⟨"b", 4 * sampleSizeNat⟩ from rfl, hm,
      Bool.false_and, Bool.false_and]

/-- Witness filesystem: an empty file at `"e"`, a file of exactly
`SAMPLE_SIZE` zero bytes at `"s"`. -/
def w2Fs : Fs := fun p =>
  if p = "e" then some (FsEntry.file [])
  else if p = "s" then some (FsEntry.file (List.replicate sampleSizeNat 0))
  else none

/-- Claim C2: the tail digest is present iff the length exceeds `SAMPLE_SIZE`,
and then it digests the last `min(length - SAMPLE_SIZE, SAMPLE_SIZE)` bytes of
the file; files of length `0` or exactly `SAMPLE_SIZE` have no tail. -/
theorem c2_tail_window (digestFn : List Nat → List Nat) (fs : Fs) (m : Metadata)
    (c : List Nat) (hfs : fs m.path = some (FsEntry.file c))
    (hlen : m.length = c.length) :
    (m.try_into digestFn fs).map Imprint.tail =
      .ok (if sampleSizeNat < c.length then
        some (digestFn
          (c.drop (c.length - min (c.length - sampleSizeNat) sampleSizeNat)))
      else none) ∧
    (c.length = 0 ∨ c.length = sampleSizeNat →
      (m.try_into digestFn fs).map Imprint.tail = .ok none) := by
  have h1 : (m.try_into digestFn fs).map Imprint.tail =
      .ok (if sampleSizeNat < c.length then
        some (digestFn
          (c.drop (c.length - min (c.length - sampleSizeNat) sampleSizeNat)))
      else none) := by
    rw [try_into_eval digestFn fs m c hfs hlen]
    rfl
  refine ⟨h1, fun hb => ?_⟩
  rw [h1]
  have hno : ¬ sampleSizeNat < c.length := by
    rcases hb with h | h <;> omega
  rw [if_neg hno]

/-- Boundary witness for C2: the 0-byte file and the `SAMPLE_SIZE`-byte file
both construct with `tail = none`. -/
theorem c2_witness :
    (Metadata.try_into idDigest w2Fs ⟨"e", 0⟩).map Imprint.tail = .ok none ∧
    (Metadata.try_into idDigest w2Fs ⟨"s", sampleSizeNat⟩).map Imprint.tail =
      .ok none := by
  constructor
  · exact (c2_tail_window idDigest w2Fs ⟨"e", 0⟩ [] (by simp [w2Fs]) rfl).2
      (Or.inl rfl)
  · exact (c2_tail_window idDigest w2Fs ⟨"s", sampleSizeNat⟩
      (List.replicate sampleSizeNat 0) (by simp [w2Fs]) (by simp)).2
      (Or.inr (by simp))

/-- Witness filesystem: a two-byte file at `"t"`. -/
def w3Fs : Fs := fun p =>
  if p = "t" then some (FsEntry.file [7, 9]) else none

/-- Claim C3: the head digest is always present and digests the first
`min(length, SAMPLE_SIZE)` bytes, with `SAMPLE_SIZE` fixed at `0x80000`. -/
theorem c3_head_window (digestFn : List Nat → List Nat) (fs : Fs) (m : Metadata)
    (c : List Nat) (hfs : fs m.path = some (FsEntry.file c))
    (hlen : m.length = c.length) :
    (m.try_into digestFn fs).map Imprint.head =
      .ok (digestFn (c.take (min c.length sampleSizeNat))) ∧
    SAMPLE_SIZE = 0x80000 ∧ sampleSizeNat = 0x80000 := by
  refine ⟨?_, rfl, rfl⟩
  rw [try_into_eval digestFn fs m c hfs hlen]
  rfl

/-- Witness for C3: the head digest of the file `[7, 9]` covers the whole
two-byte file. -/
theorem c3_witness :
    (Metadata.try_into idDigest w3Fs ⟨"t", 2⟩).map Imprint.head =
      .ok (idDigest [7, 9]) :=
  (c3_head_window idDigest w3Fs ⟨"t", 2⟩ [7, 9] (by simp [w3Fs]) rfl).1.trans
    (by rfl)

/-- Claim C4: two files of length `3 * SAMPLE_SIZE` with identical first and
last `SAMPLE_SIZE` bytes but different middle `SAMPLE_SIZE` bytes construct
equal imprints — the documented sampling collision. -/
theorem c4_collision (digestFn : List Nat → List Nat) (fs : Fs) (p1 p2 : String)
    (u v : List Nat)
    (hl1 : u.length = 3 * sampleSizeNat) (hl2 : v.length = 3 * sampleSizeNat)
    (hhead : u.take sampleSizeNat = v.take sampleSizeNat)
    (htail : u.drop (2 * sampleSizeNat) = v.drop (2 * sampleSizeNat))
    (hmid : (u.drop sampleSizeNat).take sampleSizeNat ≠
      (v.drop sampleSizeNat).take sampleSizeNat)
    (hf1 : fs p1 = some (FsEntry.file u))
    (hf2 : fs p2 = some (FsEntry.file v)) :
    ∀ i1 i2, Metadata.try_into digestFn fs ⟨p1, u.length⟩ = .ok i1 →
      Metadata.try_into digestFn fs ⟨p2, v.length⟩ = .ok i2 →
      Imprint.beq i1 i2 = true := by
  intro i1 i2 e1 e2
  rw [try_into_eval digestFn fs ⟨p1, u.length⟩ u hf1 rfl] at e1
  rw [try_into_eval digestFn fs ⟨p2, v.length⟩ v hf2 rfl] at e2
  have hS : 0 < sampleSizeNat := by decide
  injection e1 with e1'
  injection e2 with e2'
  subst e1' e2'
  rw [imprintBeq_iff]
  have hmin : min (3 * sampleSizeNat) sampleSizeNat = sampleSizeNat := by
    omega
  have hlt : sampleSizeNat < 3 * sampleSizeNat := by omega
  have hidx : 3 * sampleSizeNat -
      min (3 * sampleSizeNat - sampleSizeNat) sampleSizeNat =
      2 * sampleSizeNat := by omega
  refine ⟨?_, ?_, ?_⟩
  · show u.length = v.length
    rw [hl1, hl2]
  · show digestFn (u.take (min u.length sampleSizeNat)) =
      digestFn (v.take (min v.length sampleSizeNat))
    rw [hl1, hl2, hmin, hhead]
  · show (if sampleSizeNat < u.length then
        some (digestFn
          (u.drop (u.length - min (u.length - sampleSizeNat) sampleSizeNat)))
      else none) =
      (if sampleSizeNat < v.length then
        some (digestFn
          (v.drop (v.length - min (v.length - sampleSizeNat) sampleSizeNat)))
      else none)
    rw [hl1, hl2, if_pos hlt, if_pos hlt, hidx, htail]

/-- Witness file for C4 at `"a"`: all zeros, length `3 * SAMPLE_SIZE`. -/
def c4FileA : List Nat := List.replicate (3 * sampleSizeNat) 0

/-- Witness file for C4 at `"b"`: zero head and tail windows, all-ones middle
window. -/
def c4FileB : List Nat :=
  List.replicate sampleSizeNat 0 ++
    (List.replicate sampleSizeNat 1 ++ List.replicate sampleSizeNat 0)

/-- Witness filesystem for C4. -/
def c4Fs : Fs := fun p =>
  if p = "a" then some (FsEntry.file c4FileA)
  else if p = "b" then some (FsEntry.file c4FileB)
  else none

/-- The imprint of `c4FileA`. -/
def c4ImprintA : Imprint :=
  ⟨⟨"a", 3 * sampleSizeNat⟩, idDigest (List.replicate sampleSizeNat 0),
    some (idDigest (List.replicate sampleSizeNat 0))⟩

/-- The imprint of `c4FileB`. -/
def c4ImprintB : Imprint :=
  ⟨⟨"b", 3 * sampleSizeNat⟩, idDigest (List.replicate sampleSizeNat 0),
    some (idDigest (List.replicate sampleSizeNat 0))⟩

/-- Witness for C4: the two concrete colliding files compare equal through
construction. -/
theorem c4_witness : Imprint.beq c4ImprintA c4ImprintB = true := by
  have hS : 0 < sampleSizeNat := by decide
  have hlA : c4FileA.length = 3 * sampleSizeNat := by
    simp [c4FileA]
  have hlB : c4FileB.length = 3 * sampleSizeNat := by
    simp only [c4FileB, List.length_append, List.length_replicate]
    omega
  have htakeB : c4FileB.take sampleSizeNat = List.replicate sampleSizeNat 0 := by
    unfold c4FileB
    exact List.take_left' (by simp)
  have hdropB : c4FileB.drop (2 * sampleSizeNat) =
      List.replicate sampleSizeNat 0 := by
    unfold c4FileB
    rw [← List.append_assoc]
    exact List.drop_left'
      (by simp only [List.length_append, List.length_replicate]; omega)
  have hhead : c4FileA.take sampleSizeNat = c4FileB.take sampleSizeNat := by
    rw [htakeB]
    unfold c4FileA
    rw [List.take_replicate,
      show min sampleSizeNat (3 * sampleSizeNat) = sampleSizeNat by omega]
  have htail : c4FileA.drop (2 * sampleSizeNat) =
      c4FileB.drop (2 * sampleSizeNat) := by
    rw [hdropB]
    unfold c4FileA
    rw [List.drop_replicate,
      show 3 * sampleSizeNat - 2 * sampleSizeNat = sampleSizeNat by omega]
  have hmid : (c4FileA.drop sampleSizeNat).take sampleSizeNat ≠
      (c4FileB.drop sampleSizeNat).take sampleSizeNat := by
    intro h
    unfold c4FileA c4FileB at h
    rw [List.drop_replicate, List.take_replicate,
      List.drop_left' (by simp), List.take_left' (by simp)] at h
    have hmin : min sampleSizeNat (3 * sampleSizeNat - sampleSizeNat) =
        sampleSizeNat := by omega
    rw [hmin] at h
    exact absurd ((List.replicate_right_inj (by decide)).mp h) (by decide)
  have e1 : Metadata.try_into idDigest c4Fs ⟨"a", c4FileA.length⟩ =
      .ok c4ImprintA := by
    rw [show (⟨"a", c4FileA.length⟩ : Metadata) = ⟨"a", 3 * sampleSizeNat⟩ from
      by rw [hlA]]
    exact try_into_replicate idDigest c4Fs "a" (3 * sampleSizeNat) 0
      (by omega) (by simp [c4Fs, c4FileA])
  have e2 : Metadata.try_into idDigest c4Fs ⟨"b", c4FileB.length⟩ =
      .ok c4ImprintB := by
    rw [show (⟨"b", c4FileB.length⟩ : Metadata) = ⟨"b", 3 * sampleSizeNat⟩ from
      by rw [hlB]]
    have hev := try_into_eval idDigest c4Fs ⟨"b", 3 * sampleSizeNat⟩ c4FileB
      (by simp [c4Fs]) (by simp [hlB])
    rw [hev, hlB]
    have hmin : min (3 * sampleSizeNat) sampleSizeNat = sampleSizeNat := by
      omega
    have hlt : sampleSizeNat < 3 * sampleSizeNat := by omega
    have hidx : 3 * sampleSizeNat -
        min (3 * sampleSizeNat - sampleSizeNat) sampleSizeNat =
        2 * sampleSizeNat := by omega
    rw [hmin, if_pos hlt, hidx, htakeB, hdropB]
    rfl
  exact c4_collision idDigest c4Fs "a" "b" c4FileA c4FileB hlA hlB hhead htail
    hmid (by simp [c4Fs]) (by simp [c4Fs]) c4ImprintA c4ImprintB e1 e2

/-- Claim C5: `Metadata` keys are equal and feed identical values to the
hasher exactly when their lengths are equal, regardless of path (and hence of
content); keys of different lengths are unequal. -/
theorem c5_metadata_key (a b : Metadata) :
    (Metadata.beq a b = true ∧ a.hashStream = b.hashStream) ↔
      a.length = b.length := by
  constructor
  · intro h
    exact (metadataBeq_iff a b).mp h.1
  · intro h
    refine ⟨(metadataBeq_iff a b).mpr h, ?_⟩
    unfold Metadata.hashStream
    rw [h]

/-- Witness filesystem for C6: a directory at `"d"`, a special file at `"v"`,
a regular file at `"f"`, nothing at `"x"`. -/
def w6Fs : Fs := fun p =>
  if p = "d" then some FsEntry.dir
  else if p = "v" then some FsEntry.special
  else if p = "f" then some (FsEntry.file [3, 1, 4])
  else none

/-- Claim C6: construction on a directory or other non-regular file fails
with `NotAFile`; a stat failure yields `IoError`; on success the captured
length is the file's byte length. -/
theorem c6_probe (digestFn : List Nat → List Nat) (fs : Fs) (p : String) :
    (fs p = some FsEntry.dir → imprint_from_path digestFn fs p =
      .error .NotAFile) ∧
    (fs p = some FsEntry.special → imprint_from_path digestFn fs p =
      .error .NotAFile) ∧
    (fs p = none → imprint_from_path digestFn fs p = .error .IoError) ∧
    (∀ c, fs p = some (FsEntry.file c) →
      Metadata.from_path fs p = .ok ⟨p, c.length⟩) := by
  refine ⟨fun h => ?_, fun h => ?_, fun h => ?_, fun c h => ?_⟩
  · unfold imprint_from_path Metadata.from_path
    rw [h]
    rfl
  · unfold imprint_from_path Metadata.from_path
    rw [h]
    rfl
  · unfold imprint_from_path Metadata.from_path
    rw [h]
    rfl
  · unfold Metadata.from_path
    rw [h]

/-- Witness for C6: the directory, the special file, the missing path and the
regular file each behave as claimed. -/
theorem c6_witness :
    imprint_from_path idDigest w6Fs "d" = .error .NotAFile ∧
    imprint_from_path idDigest w6Fs "v" = .error .NotAFile ∧
    imprint_from_path idDigest w6Fs "x" = .error .IoError ∧
    Metadata.from_path w6Fs "f" = .ok ⟨"f", 3⟩ :=
  ⟨(c6_probe idDigest w6Fs "d").1 (by simp [w6Fs]),
    (c6_probe idDigest w6Fs "v").2.1 (by simp [w6Fs]),
    (c6_probe idDigest w6Fs "x").2.2.1 (by simp [w6Fs]),
    (c6_probe idDigest w6Fs "f").2.2.2 [3, 1, 4] (by simp [w6Fs])⟩

theorem try_into_file_case (digestFn : List Nat → List Nat) (fs : Fs)
    (m : Metadata) (c : List Nat) (hfs : fs m.path = some (FsEntry.file c)) :
    m.try_into digestFn fs =
      (hash_from_start digestFn c (get_head_length m.length).toNat).bind
        fun head =>
          (exceptTranspose ((get_tail_length m.length).map
            fun len => hash_from_end digestFn c len)).bind
            fun tail => Except.ok ⟨m, head, tail⟩ := by
  unfold Metadata.try_into
  rw [hfs]

/-- Claim C7: every failing step aborts construction with `IoError` — an open
failure, a short head read (fewer bytes available than requested), or a
failing tail seek; `Except` guarantees no partial imprint accompanies an
error. -/
theorem c7_error_propagation (digestFn : List Nat → List Nat) (fs : Fs)
    (m : Metadata) :
    (fs m.path = none → m.try_into digestFn fs = .error .IoError) ∧
    (∀ c, fs m.path = some (FsEntry.file c) →
      c.length < (get_head_length m.length).toNat →
      m.try_into digestFn fs = .error .IoError) ∧
    (∀ c t, fs m.path = some (FsEntry.file c) →
      (get_head_length m.length).toNat ≤ c.length →
      get_tail_length m.length = some t →
      c.length < t.toNat →
      m.try_into digestFn fs = .error .IoError) := by
  refine ⟨fun h => ?_, fun c hc hshort => ?_, fun c t hc hhead ht hseek => ?_⟩
  · unfold Metadata.try_into
    rw [h]
  · rw [try_into_file_case digestFn fs m c hc]
    unfold hash_from_start read_exact
    rw [if_neg (by omega : ¬ 0 + (get_head_length m.length).toNat ≤ c.length)]
    rfl
  · rw [try_into_file_case digestFn fs m c hc]
    unfold hash_from_start read_exact
    rw [if_pos (by omega : 0 + (get_head_length m.length).toNat ≤ c.length)]
    rw [ht, Option.map_some']
    unfold hash_from_end
    rw [if_neg (by omega : ¬ (0 : Int) ≤ (c.length : Int) - t)]
    rfl

/-- Witness filesystem for C7: the file at `"a"` is empty although the
metadata used for construction claims 5 bytes (truncated between stat and
read). -/
def w7Fs : Fs := fun p =>
  if p = "a" then some (FsEntry.file []) else none

/-- Witness for C7: a short head read and an open failure both abort with
`IoError`. -/
theorem c7_witness :
    Metadata.try_into idDigest w7Fs ⟨"a", 5⟩ = .error .IoError ∧
    Metadata.try_into idDigest w7Fs ⟨"z", 5⟩ = .error .IoError :=
  ⟨(c7_error_propagation idDigest w7Fs ⟨"a", 5⟩).2.1 [] (by simp [w7Fs])
      (by decide),
    (c7_error_propagation idDigest w7Fs ⟨"z", 5⟩).1 (by simp [w7Fs])⟩

/-- Claim C8: construction is a pure function of the filesystem state, so two
constructions over an unchanged file yield equal imprints. -/
theorem c8_determinism (digestFn : List Nat → List Nat) (fs : Fs) (p : String) :
    ∀ i1 i2, imprint_from_path digestFn fs p = .ok i1 →
      imprint_from_path digestFn fs p = .ok i2 → Imprint.beq i1 i2 = true := by
  intro i1 i2 h1 h2
  rw [h1] at h2
  injection h2 with h
  subst h
  rw [imprintBeq_iff]
  exact ⟨rfl, rfl, rfl⟩

/-- Witness filesystem for C8: a one-byte file at `"f"`. -/
def w8Fs : Fs := fun p =>
  if p = "f" then some (FsEntry.file [7]) else none

/-- Witness for C8: fingerprinting the one-byte file twice gives equal
imprints. -/
theorem c8_witness :
    Imprint.beq ⟨⟨"f", 1⟩, idDigest [7], none⟩
      ⟨⟨"f", 1⟩, idDigest [7], none⟩ = true :=
  c8_determinism idDigest w8Fs "f" _ _ (by rfl) (by rfl)

/-- Claim C9: for every `u64` length, `get_head_length` is
`min(length, SAMPLE_SIZE)` and `get_tail_length` is
`min(length - SAMPLE_SIZE, SAMPLE_SIZE)` exactly when `length > SAMPLE_SIZE`,
with the `i64::MAX` guard preventing the negative `as i64` cast. -/
theorem c9_no_overflow (L : Nat) (hL : L < 2 ^ 64) :
    get_head_length L = ((min L sampleSizeNat : Nat) : Int) ∧
    get_tail_length L =
      (if sampleSizeNat < L then
        some ((min (L - sampleSizeNat) sampleSizeNat : Nat) : Int)
      else none) :=
  ⟨get_head_length_eq L, get_tail_length_eq L⟩

/-- Witness for C9 at a length exceeding `i64::MAX`, where the naive cast
would be negative. -/
theorem c9_witness :
    2 ^ 63 + 42 < 2 ^ 64 ∧
    get_head_length (2 ^ 63 + 42) =
      ((min (2 ^ 63 + 42) sampleSizeNat : Nat) : Int) ∧
    get_tail_length (2 ^ 63 + 42) =
      (if sampleSizeNat < 2 ^ 63 + 42 then
        some ((min (2 ^ 63 + 42 - sampleSizeNat) sampleSizeNat : Nat) : Int)
      else none) :=
  ⟨by decide, c9_no_overflow (2 ^ 63 + 42) (by decide)⟩

/-- Claim C10: equality of `Imprint` and `Metadata` ignores the stored path,
and hashing is consistent with equality: equal values feed identical value
streams to the hasher. -/
theorem c10_eq_hash_consistency :
    (∀ p q len, Metadata.beq ⟨p, len⟩ ⟨q, len⟩ = true) ∧
    (∀ p q len h t, Imprint.beq ⟨⟨p, len⟩, h, t⟩ ⟨⟨q, len⟩, h, t⟩ = true) ∧
    (∀ a b : Metadata, Metadata.beq a b = true →
      a.hashStream = b.hashStream) ∧
    (∀ a b : Imprint, Imprint.beq a b = true →
      a.hashStream = b.hashStream) := by
  refine ⟨fun p q len => ?_, fun p q len h t => ?_, fun a b hab => ?_,
    fun a b hab => ?_⟩
  · exact (metadataBeq_iff _ _).mpr rfl
  · exact (imprintBeq_iff _ _).mpr ⟨rfl, rfl, rfl⟩
  · unfold Metadata.hashStream
    rw [(metadataBeq_iff a b).mp hab]
  · obtain ⟨hlen, hhead, htail⟩ := (imprintBeq_iff a b).mp hab
    unfold Imprint.hashStream Metadata.hashStream
    rw [hlen, hhead, htail]

/-- Witness for C10: path-differing values compare equal and hash equally. -/
theorem c10_witness :
    Metadata.beq ⟨"x", 3⟩ ⟨"y", 3⟩ = true ∧
    Imprint.beq ⟨⟨"x", 3⟩, [1], none⟩ ⟨⟨"y", 3⟩, [1], none⟩ = true ∧
    Imprint.hashStream ⟨⟨"x", 3⟩, [1], none⟩ =
      Imprint.hashStream ⟨⟨"y", 3⟩, [1], none⟩ :=
  ⟨c10_eq_hash_consistency.1 "x" "y" 3,
    c10_eq_hash_consistency.2.1 "x" "y" 3 [1] none,
    c10_eq_hash_consistency.2.2.2 _ _ (by decide)⟩
